import Mathlib

/-!
Verification of the ely-tools CLI toolkit.

The development shallowly embeds the three commands of the repository:
the directory-size report (`getSize`, `listDirectoryContents`,
`getDirectorySizes`, `formatBytes`), the batch exec command
(`getSubdirectories`, `executeCommand`, `execCommand`) and the pack
command (`packCommand`).  Filesystem state is modelled as a tree of
entries; each entry records whether `statSync` succeeds on it
(`statOk`) and, for a directory, whether `readdirSync` succeeds
(`readOk`).  External synchronous command execution is modelled by an
oracle assigning an outcome to every (command, directory) pair.
Machine numbers are modelled as `Nat`; the floating-point logarithm and
`toFixed` rounding of `formatBytes` are modelled by their exact
mathematical counterparts.
-/

/-- A node of the filesystem as seen by the commands.  `statOk` tells
whether `fs.statSync` succeeds on the entry (`false` models a thrown
exception); `readOk` tells whether `fs.readdirSync` succeeds on a
directory. -/
inductive FSEntry where
  | file (name : String) (size : Nat) (statOk : Bool)
  | dir (name : String) (statOk readOk : Bool) (children : List FSEntry)

/-- Basename of an entry. -/
def FSEntry.name : FSEntry → String
  | .file n _ _ => n
  | .dir n _ _ _ => n

/-- Whether `fs.statSync` succeeds on the entry. -/
def FSEntry.statOk : FSEntry → Bool
  | .file _ _ st => st
  | .dir _ st _ _ => st

/-- The `stats.isDirectory()` classification of an entry. -/
def FSEntry.isDirectory : FSEntry → Bool
  | .file _ _ _ => false
  | .dir _ _ _ _ => true

/-!
Shallow embedding of `getSize` from the size command
(get-directory-sizes, lines 31-54).  The result value is the computed
byte total together with the list of `console.warn` messages (the paths
named in "Warning: Cannot read directory ..." lines, in emission
order).  `Except.error` models the `statSync` exception thrown at line
32, which is NOT caught inside `getSize` itself: for a directory it is
caught by the enclosing `try` of the parent invocation, aborting the
parent's accumulation loop.  `getSizeLoop` embeds the `for` loop over
`readdirSync` results: a child returning normally contributes its size
and warnings; a child whose `statSync` throws makes the parent stop the
loop, emit one warning naming the parent path, and return the total
accumulated so far.
-/
mutual

def getSize : FSEntry → String → Except Unit (Nat × List String)
  | .file _ sz st, _ => if st then .ok (sz, []) else .error ()
  | .dir _ st rd cs, p =>
      if st then
        if rd then .ok (getSizeLoop cs p) else .ok (0, [p])
      else .error ()
def getSizeLoop : List FSEntry → String → Nat × List String
  | [], _ => (0, [])
  | c :: rest, p =>
      match getSize c (p ++ "/" ++ c.name) with
      | .ok r =>
          let t := getSizeLoop rest p
          (r.1 + t.1, r.2 ++ t.2)
      | .error _ => (0, [p])
end

/-- The numeric value of `getSize` at a call site where the caller has
already verified `statSync` succeeds (as `listDirectoryContents` does at
line 84 before calling `getSize` at line 88); the `0` default is never
reached there. -/
def getSizeVal (e : FSEntry) (p : String) : Nat :=
  match getSize e p with
  | .ok r => r.1
  | .error _ => 0

/-- The `DirectoryItem` record of types.ts, produced by the walker. -/
structure DirectoryItem where
  name : String
  path : String
  relativePath : String
  size : Nat
  depth : Nat
deriving DecidableEq

/-!
Shallow embedding of the recursive part of `listDirectoryContents`
(lines 64-120 and 147): the depth guard (`currentDepth > maxDepth`
returns `[]`), the `readdirSync` listing (a failing listing, or a
non-directory argument, yields `[]` after the caught error), and the
per-entry loop (`listItemsLoop`): an entry whose `statSync` throws is
skipped with a warning; a directory entry is emitted as a
`DirectoryItem` (size via `getSize`, depth = `currentDepth`,
`relativePath` = `path.relative(dirPath, itemPath)` = its basename)
followed by the recursive listing at `currentDepth + 1`.
-/
mutual

def listDirectoryContentsRec (maxDepth : Nat) : FSEntry → String → Nat → List DirectoryItem
  | e, dirPath, currentDepth =>
      if currentDepth > maxDepth then []
      else
        match e with
        | .file _ _ _ => []
        | .dir _ _ rd cs =>
            if rd then listItemsLoop maxDepth cs dirPath currentDepth else []
def listItemsLoop (maxDepth : Nat) : List FSEntry → String → Nat → List DirectoryItem
  | [], _, _ => []
  | c :: rest, dirPath, currentDepth =>
      (if c.statOk then
        match c with
        | .dir nm _ _ _ =>
            { name := nm, path := dirPath ++ "/" ++ nm, relativePath := nm,
              size := getSizeVal c (dirPath ++ "/" ++ nm), depth := currentDepth }
              :: listDirectoryContentsRec maxDepth c (dirPath ++ "/" ++ nm) (currentDepth + 1)
        | .file _ _ _ => []
      else [])
      ++ listItemsLoop maxDepth rest dirPath currentDepth
end

/-- Stable insertion of an item into a list sorted by size descending:
the item is placed before the first element whose size does not exceed
it, i.e. after every strictly larger element and before every element of
equal or smaller size. -/
def insertBySizeDesc (x : DirectoryItem) : List DirectoryItem → List DirectoryItem
  | [] => [x]
  | y :: ys => if y.size ≤ x.size then x :: y :: ys else y :: insertBySizeDesc x ys

/-- Shallow embedding of `directories.sort((a, b) => b.size - a.size)`
at line 125: JavaScript `Array.prototype.sort` is stable and the
comparator orders by size descending, so the call denotes the unique
stable descending-by-size reordering, realised here as a stable
insertion sort processing the discovery order left to right. -/
def sortBySizeDesc : List DirectoryItem → List DirectoryItem
  | [] => []
  | x :: xs => insertBySizeDesc x (sortBySizeDesc xs)

/-- The root invocation of `listDirectoryContents` (`currentDepth = 0`):
the flat walked list is sorted by size descending (line 125) and sliced
to the first `topCount` entries (line 128); the sliced list is both
displayed and returned (line 144). -/
def listDirectoryContents (e : FSEntry) (dirPath : String) (maxDepth topCount : Nat) :
    List DirectoryItem :=
  (sortBySizeDesc (listDirectoryContentsRec maxDepth e dirPath 0)).take topCount

/-- The observable outcome of `getDirectorySizes`: the boolean return
value, the node list returned by the walker, and the reported
`totalSize`. -/
structure ScanReport where
  ok : Bool
  nodes : List DirectoryItem
  totalSize : Nat
deriving DecidableEq

/-- Shallow embedding of `getDirectorySizes` (lines 155-197).  `root =
none` models `existsSync` returning false; a root with `statOk = false`
models the `statSync` throw at line 164 (caught at line 193, returning
false); a non-directory root fails the `isDirectory` check.  Otherwise
the walker runs and `totalSize` is `directories.reduce((sum, dir) =>
sum + dir.size, 0)` over the LIST RETURNED BY the root walker call,
i.e. over the sorted, `topCount`-sliced list (line 186). -/
def getDirectorySizes (root : Option FSEntry) (directory : String) (maxDepth topCount : Nat) :
    ScanReport :=
  match root with
  | none => { ok := false, nodes := [], totalSize := 0 }
  | some e =>
      if !e.statOk then { ok := false, nodes := [], totalSize := 0 }
      else if !e.isDirectory then { ok := false, nodes := [], totalSize := 0 }
      else
        let directories := listDirectoryContents e directory maxDepth topCount
        { ok := true, nodes := directories,
          totalSize := (directories.map DirectoryItem.size).sum }

/-- The `sizes` array of `formatBytes`. -/
def byteUnits : List String := ["B", "KB", "MB", "GB", "TB"]

/-- The value of `parseFloat((num/den).toFixed(2))` in hundredths:
`toFixed(2)` rounds to the nearest hundredth, half away from zero
(here half up, all quantities being non-negative). -/
def toFixedTwo (num den : Nat) : Nat := (200 * num + den) / (2 * den)

/-- Decimal rendering of a number of hundredths the way JavaScript
prints `parseFloat(x.toFixed(2))`: trailing zeros of the fractional
part are dropped, and an integral value prints with no decimal
point. -/
def renderTwoDecimals (c : Nat) : String :=
  let ip := c / 100
  let fp := c % 100
  if fp = 0 then toString ip
  else if fp % 10 = 0 then toString ip ++ "." ++ toString (fp / 10)
  else if fp < 10 then toString ip ++ ".0" ++ toString fp
  else toString ip ++ "." ++ toString fp

/-- Shallow embedding of `formatBytes` (lines 16-24).  `Math.floor(
Math.log(bytes) / Math.log(1024))` is the floor logarithm `Nat.log
1024 bytes` (real logarithms modelled exactly); `sizes[i]` for `i ≥ 5`
is JavaScript `undefined`, which string-concatenates as
`"undefined"`. -/
def formatBytes (bytes : Nat) : String :=
  if bytes = 0 then "0 B"
  else
    renderTwoDecimals (toFixedTwo bytes (1024 ^ Nat.log 1024 bytes)) ++ " " ++
      byteUnits.getD (Nat.log 1024 bytes) "undefined"

/-- The fixed deny-list of directory names the exec walker never enters
(exec-command.ts line 45). -/
def skipDirs : List String := ["node_modules", ".git", ".next", "dist", "build"]

/-- Shallow embedding of `hasPackageJson` (exec-command.ts lines
13-15): `fs.existsSync(path.join(dirPath, "package.json"))`, i.e. the
directory has a child entry named `package.json` on which the
existence probe succeeds (`existsSync` returns false rather than
throwing when the underlying stat fails). -/
def hasPackageJson : FSEntry → Bool
  | .file _ _ _ => false
  | .dir _ _ _ cs => cs.any (fun c => c.name == "package.json" && c.statOk)

/-!
Shallow embedding of `getSubdirectories` (exec-command.ts lines
24-64), paired with the subtree each produced path denotes: the depth
guard returns `[]`; a failing listing (or a non-directory argument)
yields `[]` after the caught error; in the per-entry loop
(`getSubdirectoriesLoop`) an entry whose `statSync` throws is skipped
(`continue`), and a directory entry not on `skipDirs` is pushed and
recursed into at `currentDepth + 1` (deny-listed directories are
neither pushed nor recursed into).
-/
mutual

def getSubdirectories (maxDepth : Nat) : FSEntry → String → Nat → List (String × FSEntry)
  | e, dirPath, currentDepth =>
      if currentDepth > maxDepth then []
      else
        match e with
        | .file _ _ _ => []
        | .dir _ _ rd cs =>
            if rd then getSubdirectoriesLoop maxDepth cs dirPath currentDepth else []

def getSubdirectoriesLoop (maxDepth : Nat) : List FSEntry → String → Nat → List (String × FSEntry)
  | [], _, _ => []
  | c :: rest, dirPath, currentDepth =>
      (if c.statOk then
        if c.isDirectory && !skipDirs.contains c.name then
          (dirPath ++ "/" ++ c.name, c)
            :: getSubdirectories maxDepth c (dirPath ++ "/" ++ c.name) (currentDepth + 1)
        else []
      else [])
      ++ getSubdirectoriesLoop maxDepth rest dirPath currentDepth

end

/-- Outcome of a synchronous `execSync` invocation: `exitZero` carries
the captured stdout; `nonZero` models the thrown error object carrying
`error.stdout` (absent when nothing was captured) and
`error.message`. -/
inductive CmdOutcome where
  | exitZero (stdout : String)
  | nonZero (stdout : Option String) (message : String)

/-- The record built by `executeCommand` (exec-command.ts lines
72-95). -/
structure ExecutionResult where
  success : Bool
  output : String
  error : Option String
deriving DecidableEq

/-- The external child-process facility: which outcome `execSync`
produces for a given command run in a given directory. -/
abbrev Runner := String → String → CmdOutcome

/-- Shallow embedding of `executeCommand` (exec-command.ts lines
72-95): success wraps the trimmed stdout; failure computes
`errorOutput = error.stdout || error.message` (JavaScript `||`: the
message is used when `stdout` is absent or the empty string) and
returns `success: false` with `errorOutput.trim()` and the failure
message. -/
def executeCommand (runner : Runner) (command dirPath : String) : ExecutionResult :=
  match runner command dirPath with
  | .exitZero out => { success := true, output := out.trim, error := none }
  | .nonZero stdout msg =>
      let errorOutput := match stdout with
        | some s => if s = "" then msg else s
        | none => msg
      { success := false, output := errorOutput.trim, error := some msg }

/-- JavaScript truthiness of the `packageName` option at
exec-command.ts line 129: the package.json filter is applied exactly
when the option is present and not the empty string. -/
def pkgFilterActive : Option String → Bool
  | none => false
  | some s => s != ""

/-- The `targetDirectories` computed at exec-command.ts lines 126-131:
all subdirectories up to `maxDepth`, filtered to those containing a
`package.json` when the `packageName` option is (truthily)
supplied. -/
def execTargets (e : FSEntry) (absolutePath : String) (maxDepth : Nat)
    (packageName : Option String) : List (String × FSEntry) :=
  let subdirectories := getSubdirectories maxDepth e absolutePath 0
  if pkgFilterActive packageName then
    subdirectories.filter (fun d => hasPackageJson d.2)
  else subdirectories

/-- `path.relative(absolutePath, dir)` for the paths produced by the
walker, which are all of the form `absolutePath ++ "/" ++ rest`. -/
def relativeTo (root p : String) : String := p.drop (root.length + 1)

/-- The observable outcome of `execCommand`: its boolean return value,
the accumulated per-directory results (relative path and
`ExecutionResult`, in dispatch order), and the summary tallies printed
at line 191. -/
structure ExecRun where
  ok : Bool
  results : List (String × ExecutionResult)
  successCount : Nat
  failureCount : Nat

/-- Shallow embedding of `execCommand` (exec-command.ts lines
102-199).  `root = none` models `existsSync` returning false; `statOk
= false` on the root models the `statSync` throw at line 111 (caught
at line 195, returning false); a non-directory root fails validation.
Otherwise every target directory is processed in order, each through
`executeCommand`, and the summary counts successes and failures over
the accumulated results; the handler then returns true. -/
def execCommand (runner : Runner) (exec : String) (root : Option FSEntry)
    (directory : String) (maxDepth : Nat) (packageName : Option String) : ExecRun :=
  match root with
  | none => { ok := false, results := [], successCount := 0, failureCount := 0 }
  | some e =>
      if !e.statOk then { ok := false, results := [], successCount := 0, failureCount := 0 }
      else if !e.isDirectory then
        { ok := false, results := [], successCount := 0, failureCount := 0 }
      else
        let targets := execTargets e directory maxDepth packageName
        let results := targets.map
          (fun d => (relativeTo directory d.1, executeCommand runner exec d.1))
        { ok := true, results := results,
          successCount := results.countP (fun r => r.2.success),
          failureCount := results.countP (fun r => !r.2.success) }

/-- The environment a `packCommand` invocation observes: the target
directory (with `none` modelling a nonexistent path), the synchronous
command facility for the resolved directory (used for the build step,
the pack step and the `echo ... | pbcopy` clipboard write), and the
result of `findLatestTarball` after the pack step has run.
`removeTarballs` and `findLatestTarball` only read and mutate the
filesystem and log; their innards do not affect control flow beyond
the latter's result, which the environment records. -/
structure PackEnv where
  root : Option FSEntry
  runner : String → CmdOutcome
  tarballAfterPack : Option String

/-- Shallow embedding of the pack command's own `executeCommand`
(pack-command.ts lines 40-67), identical in behaviour to the exec
command's copy, with the working directory fixed to the resolved
target directory. -/
def packExecuteCommand (runner : String → CmdOutcome) (command : String) : ExecutionResult :=
  match runner command with
  | .exitZero out => { success := true, output := out.trim, error := none }
  | .nonZero stdout msg =>
      let errorOutput := match stdout with
        | some s => if s = "" then msg else s
        | none => msg
      { success := false, output := errorOutput.trim, error := some msg }

/-- Shallow embedding of `copyToClipboard` (pack-command.ts lines
102-110): runs `echo "<text>" | pbcopy` through `execSync`, returning
true on success and false (after logging the error) when the
invocation throws. -/
def copyToClipboard (runner : String → CmdOutcome) (text : String) : Bool :=
  match runner ("echo \"" ++ text ++ "\" | pbcopy") with
  | .exitZero _ => true
  | .nonZero _ _ => false

/-- The observable outcome of `packCommand`: its boolean return value
and the noteworthy `console` lines of its body, in emission order. -/
structure PackRun where
  ok : Bool
  log : List String

/-- Shallow embedding of `packCommand` (pack-command.ts lines
117-188): path validation, the (warning-only) tarball cleanup, the
build step (failure returns false), the pack step (failure returns
false), tarball discovery (absence returns false), then the clipboard
write: on success the path is logged as copied, on failure the path is
printed as plain textual output instead, and in both cases the command
completes returning true. -/
def packCommand (env : PackEnv) : PackRun :=
  match env.root with
  | none => { ok := false, log := ["Error: directory does not exist"] }
  | some e =>
      if !e.statOk then { ok := false, log := ["Error: stat failed"] }
      else if !e.isDirectory then { ok := false, log := ["Error: not a directory"] }
      else
        let buildResult := packExecuteCommand env.runner "pnpm run build"
        if !buildResult.success then { ok := false, log := ["❌ Build failed:"] }
        else
          let packResult := packExecuteCommand env.runner "pnpm pack"
          if !packResult.success then
            { ok := false, log := ["✅ Build completed", "❌ Pack failed:"] }
          else
            match env.tarballAfterPack with
            | none =>
                { ok := false,
                  log := ["✅ Build completed", "✅ Pack completed",
                          "❌ No .tgz file found after packing"] }
            | some tarballPath =>
                if copyToClipboard env.runner tarballPath then
                  { ok := true,
                    log := ["✅ Build completed", "✅ Pack completed",
                            "📋 Copied to clipboard: " ++ tarballPath,
                            "🎉 Pack command completed successfully!"] }
                else
                  { ok := true,
                    log := ["✅ Build completed", "✅ Pack completed",
                            "📄 Tarball path: " ++ tarballPath,
                            "🎉 Pack command completed successfully!"] }

/-!
Specification-side helpers used to state the claims about `getSize`.
-/

/-!
Every entry of the tree can be statted (no `statSync` call throws).
-/
mutual

def allStatOk : FSEntry → Bool
  | .file _ _ st => st
  | .dir _ st _ cs => st && allStatOkList cs

def allStatOkList : List FSEntry → Bool
  | [] => true
  | c :: r => allStatOk c && allStatOkList r

end

/-!
The size `getSize` is specified to compute when no stat fails: a file
contributes its recorded size, a readable directory the sum over its
children, an unreadable directory zero.
-/
mutual

def sizeOk : FSEntry → Nat
  | .file _ sz _ => sz
  | .dir _ _ rd cs => if rd then sizeOkList cs else 0

def sizeOkList : List FSEntry → Nat
  | [] => 0
  | c :: r => sizeOk c + sizeOkList r

end

/-!
The warnings `getSize` is specified to emit when no stat fails: one
per directory whose listing fails, naming its path, in traversal
order.
-/
mutual

def sizeOkWarnings : FSEntry → String → List String
  | .file _ _ _, _ => []
  | .dir _ _ rd cs, p => if rd then sizeOkWarningsList cs p else [p]

def sizeOkWarningsList : List FSEntry → String → List String
  | [], _ => []
  | c :: r, p => sizeOkWarnings c (p ++ "/" ++ c.name) ++ sizeOkWarningsList r p

end

/-- A directory child whose listing fails (an unreadable
directory). -/
def isUnreadableDir : FSEntry → Bool
  | .dir _ _ rd _ => !rd
  | .file _ _ _ => false

/-- A child on which the claimed per-child skip succeeds: it can be
statted and, if a directory, listed.  (Worded from the claim: a
"readable child".) -/
def readableChild (c : FSEntry) : Bool :=
  c.statOk && !isUnreadableDir c

/-- The value claim C3 predicts for `getSize` on a directory with the
given children: the sum of sizes over all readable children, each
unreadable child contributing zero.  (Worded from the claim, for
comparison against the source behaviour.) -/
def claimedReadableSum (cs : List FSEntry) (p : String) : Nat :=
  (cs.map (fun c => if readableChild c then getSizeVal c (p ++ "/" ++ c.name) else 0)).sum

/-- Specification of the exec dispatch set (worded from the claim):
starting from the subtree `e` rooted at path `p` with current depth
`d`, the pair of a path `q` and subtree `c` is reached when `c` is at
the end of a chain of statable directory children, each discovered
through a readable listing, none bearing a deny-listed name, every
link staying within the depth bound. -/
inductive DispatchReach (maxDepth : Nat) : FSEntry → String → Nat → FSEntry → String → Prop where
  | here {nm : String} {st : Bool} {cs : List FSEntry} {p : String} {d : Nat} {c : FSEntry} :
      c ∈ cs → c.isDirectory = true → c.statOk = true →
      c.name ∉ skipDirs → d ≤ maxDepth →
      DispatchReach maxDepth (.dir nm st true cs) p d c (p ++ "/" ++ c.name)
  | there {nm : String} {st : Bool} {cs : List FSEntry} {p : String} {d : Nat}
      {link c : FSEntry} {q : String} :
      link ∈ cs → link.isDirectory = true → link.statOk = true →
      link.name ∉ skipDirs → d ≤ maxDepth →
      DispatchReach maxDepth link (p ++ "/" ++ link.name) (d + 1) c q →
      DispatchReach maxDepth (.dir nm st true cs) p d c q

/-!
Concrete scenarios used by the claims and their witnesses.
-/

/-- The tree `root/{a/(file 100B), b/{c/(file 200B)}}` of the
depth-zero scan scenario. -/
def scanTreeC1 : FSEntry :=
  .dir "root" true true
    [.dir "a" true true [.file "f" 100 true],
     .dir "b" true true [.dir "c" true true [.file "g" 200 true]]]

/-- Children of a directory whose first child cannot be statted while
the second is a readable 10-byte file. -/
def statFailChildren : List FSEntry := [.dir "c" false true [], .file "y" 10 true]

/-- A readable directory with `statFailChildren` as contents. -/
def statFailTree : FSEntry := .dir "t" true true statFailChildren

/-- Children of a directory whose first child is a statable but
unreadable directory (its listing fails) and whose second is a
readable 10-byte file. -/
def unreadableChildren : List FSEntry :=
  [.dir "c" true false [.file "hidden" 7 true], .file "y" 10 true]

/-- A two-package workspace for the exec scenarios. -/
def execDemoTree : FSEntry :=
  .dir "r" true true
    [.dir "one" true true [.file "package.json" 1 true],
     .dir "two" true true [.file "package.json" 1 true]]

/-- A command facility under which the command succeeds in `r/one` and
exits non-zero (with captured stdout) in every other directory. -/
def execDemoRunner : Runner := fun _ dir =>
  if dir = "r/one" then .exitZero "ok"
  else .nonZero (some "boom") "Command failed: exit code 1"

/-- A chain `root/a/b/deep` of empty nested directories for the depth
bound witness. -/
def depthDemoTree : FSEntry :=
  .dir "root" true true [.dir "a" true true [.dir "b" true true [.dir "deep" true true []]]]

/-- A command facility whose build and pack steps succeed and whose
clipboard pipeline fails. -/
def packDemoRunner : String → CmdOutcome := fun cmd =>
  if cmd = "pnpm run build" then .exitZero "built"
  else if cmd = "pnpm pack" then .exitZero "packed"
  else .nonZero none "pbcopy: command not found"

/-- A pack environment over a valid directory, with a tarball present
after packing and a failing clipboard. -/
def packDemoEnv : PackEnv :=
  { root := some (.dir "proj" true true []),
    runner := packDemoRunner,
    tarballAfterPack := some "/proj/proj-1.0.0.tgz" }

/-!
When every stat succeeds, `getSize` returns normally with the
specified size and warning list: listing failures are skipped per
child without aborting the enclosing sums.
-/
mutual

theorem getSize_of_allStatOk (e : FSEntry) (p : String) (h : allStatOk e = true) :
    getSize e p = .ok (sizeOk e, sizeOkWarnings e p) := by
  match e with
  | .file nm sz st =>
      simp [allStatOk] at h
      simp [getSize, sizeOk, sizeOkWarnings, h]
  | .dir nm st rd cs =>
      simp [allStatOk] at h
      obtain ⟨h1, h2⟩ := h
      subst h1
      match rd with
      | false => simp [getSize, sizeOk, sizeOkWarnings]
      | true => simp [getSize, sizeOk, sizeOkWarnings, getSizeLoop_of_allStatOk cs p h2]

theorem getSizeLoop_of_allStatOk (l : List FSEntry) (p : String)
    (h : allStatOkList l = true) :
    getSizeLoop l p = (sizeOkList l, sizeOkWarningsList l p) := by
  match l with
  | [] => simp [getSizeLoop, sizeOkList, sizeOkWarningsList]
  | c :: r =>
      simp [allStatOkList] at h
      obtain ⟨h1, h2⟩ := h
      simp [getSizeLoop, getSize_of_allStatOk c (p ++ "/" ++ c.name) h1, sizeOkList,
        sizeOkWarningsList, getSizeLoop_of_allStatOk r p h2]

end

/-!
Properties of the stable descending sort used by the reporter.
-/

/-- Inserting an item permutes consing it. -/
theorem insertBySizeDesc_perm (x : DirectoryItem) (l : List DirectoryItem) :
    List.Perm (insertBySizeDesc x l) (x :: l) := by
  induction l with
  | nil => simp [insertBySizeDesc]
  | cons y ys ih =>
      by_cases h : y.size ≤ x.size
      · simp [insertBySizeDesc, h]
      · simp only [insertBySizeDesc, if_neg h]
        exact List.Perm.trans (List.Perm.cons y ih) (List.Perm.swap x y ys)

/-- The stable sort permutes its input. -/
theorem sortBySizeDesc_perm (l : List DirectoryItem) : List.Perm (sortBySizeDesc l) l := by
  induction l with
  | nil => simp [sortBySizeDesc]
  | cons x xs ih =>
      exact List.Perm.trans (insertBySizeDesc_perm x _) (List.Perm.cons x ih)

/-- Insertion preserves the descending-by-size ordering. -/
theorem pairwise_insertBySizeDesc (x : DirectoryItem) (l : List DirectoryItem)
    (h : l.Pairwise (fun a b => b.size ≤ a.size)) :
    (insertBySizeDesc x l).Pairwise (fun a b => b.size ≤ a.size) := by
  induction l with
  | nil => simp [insertBySizeDesc]
  | cons y ys ih =>
      rw [List.pairwise_cons] at h
      obtain ⟨hy, hys⟩ := h
      by_cases hcmp : y.size ≤ x.size
      · rw [insertBySizeDesc, if_pos hcmp, List.pairwise_cons]
        refine ⟨?_, by rw [List.pairwise_cons]; exact ⟨hy, hys⟩⟩
        intro z hz
        rcases List.mem_cons.mp hz with rfl | hz
        · exact hcmp
        · exact le_trans (hy z hz) hcmp
      · rw [insertBySizeDesc, if_neg hcmp, List.pairwise_cons]
        refine ⟨?_, ih hys⟩
        intro z hz
        have hz2 := (insertBySizeDesc_perm x ys).mem_iff.mp hz
        rcases List.mem_cons.mp hz2 with rfl | hz3
        · exact le_of_lt (Nat.lt_of_not_le hcmp)
        · exact hy z hz3

/-- The sorted list is descending by size. -/
theorem sortBySizeDesc_sorted (l : List DirectoryItem) :
    (sortBySizeDesc l).Pairwise (fun a b => b.size ≤ a.size) := by
  induction l with
  | nil => simp [sortBySizeDesc]
  | cons x xs ih => exact pairwise_insertBySizeDesc x _ ih

/-- Inserting an item puts it in front of the items of its own size:
everything it is inserted behind is strictly larger. -/
theorem filter_insertBySizeDesc_eq (x : DirectoryItem) (l : List DirectoryItem) :
    (insertBySizeDesc x l).filter (fun y => y.size == x.size)
      = x :: l.filter (fun y => y.size == x.size) := by
  induction l with
  | nil => simp [insertBySizeDesc]
  | cons y ys ih =>
      by_cases h : y.size ≤ x.size
      · simp only [insertBySizeDesc, if_pos h]
        rw [List.filter_cons_of_pos (by simp)]
      · have hne : (y.size == x.size) = false := by
          simp only [beq_eq_false_iff_ne]
          omega
        simp only [insertBySizeDesc, if_neg h]
        rw [List.filter_cons_of_neg (by simp [hne]), ih,
          List.filter_cons_of_neg (by simp [hne])]

/-- Inserting an item of another size leaves the filtered list
unchanged. -/
theorem filter_insertBySizeDesc_ne (x : DirectoryItem) (l : List DirectoryItem) (s : Nat)
    (hx : (x.size == s) = false) :
    (insertBySizeDesc x l).filter (fun y => y.size == s)
      = l.filter (fun y => y.size == s) := by
  induction l with
  | nil => simp [insertBySizeDesc, hx]
  | cons y ys ih =>
      by_cases h : y.size ≤ x.size
      · simp only [insertBySizeDesc, if_pos h]
        rw [List.filter_cons_of_neg (by simp [hx])]
      · simp only [insertBySizeDesc, if_neg h]
        rw [List.filter_cons, List.filter_cons, ih]

/-- Stability: the sort preserves the relative order of items of any
fixed size. -/
theorem filter_sortBySizeDesc (l : List DirectoryItem) (s : Nat) :
    (sortBySizeDesc l).filter (fun y => y.size == s) = l.filter (fun y => y.size == s) := by
  induction l with
  | nil => simp [sortBySizeDesc]
  | cons x xs ih =>
      by_cases hx : x.size = s
      · subst hx
        rw [sortBySizeDesc, filter_insertBySizeDesc_eq x _, ih,
          List.filter_cons_of_pos (by simp)]
      · have hxb : (x.size == s) = false := by
          simp only [beq_eq_false_iff_ne]
          exact hx
        rw [sortBySizeDesc, filter_insertBySizeDesc_ne x _ s hxb, ih,
          List.filter_cons_of_neg (by simp [hxb])]

/-!
Depth bounds for the size-report walker: every emitted node carries
the depth at which it was discovered, which lies between the depth of
the invocation that emitted it and `maxDepth`.
-/
mutual

theorem depth_bound_rec (maxDepth : Nat) (e : FSEntry) (p : String) (d : Nat)
    (x : DirectoryItem) (hx : x ∈ listDirectoryContentsRec maxDepth e p d) :
    d ≤ x.depth ∧ x.depth ≤ maxDepth := by
  match e with
  | .file nm sz st =>
      rw [listDirectoryContentsRec] at hx
      by_cases hd : d > maxDepth
      · simp [hd] at hx
      · simp [hd] at hx
  | .dir nm st rd cs =>
      rw [listDirectoryContentsRec] at hx
      by_cases hd : d > maxDepth
      · simp [hd] at hx
      · simp only [if_neg hd] at hx
        match rd with
        | false => simp at hx
        | true =>
            simp only at hx
            exact depth_bound_loop maxDepth cs p d (Nat.le_of_not_lt hd) x hx

theorem depth_bound_loop (maxDepth : Nat) (l : List FSEntry) (p : String) (d : Nat)
    (hd : d ≤ maxDepth) (x : DirectoryItem) (hx : x ∈ listItemsLoop maxDepth l p d) :
    d ≤ x.depth ∧ x.depth ≤ maxDepth := by
  match l with
  | [] => simp [listItemsLoop] at hx
  | c :: rest =>
      rw [listItemsLoop.eq_def] at hx
      simp only at hx
      rcases List.mem_append.mp hx with hin | hin
      · match hst : c.statOk with
        | false => simp [hst] at hin
        | true =>
            simp only [hst, if_pos] at hin
            match c with
            | .file nm sz st => simp at hin
            | .dir nm st2 rd cs =>
                rcases List.mem_cons.mp hin with rfl | hrec
                · exact ⟨Nat.le_refl _, hd⟩
                · have h2 := depth_bound_rec maxDepth (.dir nm st2 rd cs)
                    (p ++ "/" ++ FSEntry.name (.dir nm st2 rd cs)) (d + 1) x hrec
                  exact ⟨Nat.le_of_succ_le h2.1, h2.2⟩
      · exact depth_bound_loop maxDepth rest p d hd x hin

end

/-- A qualifying child of a listed directory is pushed by the loop. -/
theorem loop_mem_of_qual (maxDepth : Nat) (l : List FSEntry) (p : String) (d : Nat)
    (c : FSEntry) (hc : c ∈ l) (hdir : c.isDirectory = true) (hst : c.statOk = true)
    (hskip : c.name ∉ skipDirs) :
    (p ++ "/" ++ c.name, c) ∈ getSubdirectoriesLoop maxDepth l p d := by
  induction l with
  | nil => simp at hc
  | cons a rest ih =>
      rw [getSubdirectoriesLoop.eq_def]
      simp only
      rcases List.mem_cons.mp hc with rfl | hc2
      · rw [List.mem_append]
        left
        simp [hst, hdir, hskip]
      · rw [List.mem_append]
        right
        exact ih hc2

/-- A pair reached through a qualifying child is produced by the loop
(through that child's own recursive listing). -/
theorem loop_mem_of_rec (maxDepth : Nat) (l : List FSEntry) (p : String) (d : Nat)
    (link c : FSEntry) (q : String) (hl : link ∈ l) (hdir : link.isDirectory = true)
    (hst : link.statOk = true) (hskip : link.name ∉ skipDirs)
    (hrec : (q, c) ∈ getSubdirectories maxDepth link (p ++ "/" ++ link.name) (d + 1)) :
    (q, c) ∈ getSubdirectoriesLoop maxDepth l p d := by
  induction l with
  | nil => simp at hl
  | cons a rest ih =>
      rw [getSubdirectoriesLoop.eq_def]
      simp only
      rcases List.mem_cons.mp hl with rfl | hl2
      · rw [List.mem_append]
        left
        have hc2 : skipDirs.contains link.name = false := by simpa using hskip
        simp only [hst, hdir, hc2, Bool.not_false, Bool.and_self, if_true]
        exact List.mem_cons_of_mem _ hrec
      · rw [List.mem_append]
        right
        exact ih hl2

/-- One step of weakening: a reach from a tail of the child list is a
reach from the full list. -/
theorem DispatchReach.widen (maxDepth : Nat) (nm : String) (st : Bool) (a : FSEntry)
    (rest : List FSEntry) (p : String) (d : Nat) (c : FSEntry) (q : String)
    (h : DispatchReach maxDepth (.dir nm st true rest) p d c q) :
    DispatchReach maxDepth (.dir nm st true (a :: rest)) p d c q := by
  cases h with
  | here hmem hdir hst2 hskip hdd =>
      exact DispatchReach.here (List.mem_cons_of_mem a hmem) hdir hst2 hskip hdd
  | there hmem hdir hst2 hskip hdd hrec =>
      exact DispatchReach.there (List.mem_cons_of_mem a hmem) hdir hst2 hskip hdd hrec

/-!
Soundness direction: every pair the walker produces is reached by the
specification relation.
-/
mutual

theorem getSubdirectories_sound (maxDepth : Nat) (e : FSEntry) (p : String) (d : Nat)
    (c : FSEntry) (q : String) (h : (q, c) ∈ getSubdirectories maxDepth e p d) :
    DispatchReach maxDepth e p d c q := by
  match e with
  | .file nm sz st =>
      rw [getSubdirectories] at h
      by_cases hd : d > maxDepth
      · simp [hd] at h
      · simp [hd] at h
  | .dir nm st rd cs =>
      rw [getSubdirectories] at h
      by_cases hd : d > maxDepth
      · simp [hd] at h
      · simp only [if_neg hd] at h
        match rd with
        | false => simp at h
        | true =>
            simp only at h
            exact getSubdirectoriesLoop_sound maxDepth cs nm st p d
              (Nat.le_of_not_lt hd) c q h

theorem getSubdirectoriesLoop_sound (maxDepth : Nat) (l : List FSEntry) (nm : String)
    (st : Bool) (p : String) (d : Nat) (hd : d ≤ maxDepth) (c : FSEntry) (q : String)
    (h : (q, c) ∈ getSubdirectoriesLoop maxDepth l p d) :
    DispatchReach maxDepth (.dir nm st true l) p d c q := by
  match l with
  | [] => simp [getSubdirectoriesLoop] at h
  | a :: rest =>
      rw [getSubdirectoriesLoop.eq_def] at h
      simp only at h
      rcases List.mem_append.mp h with hin | hin
      · by_cases hst : a.statOk = true
        · rw [if_pos hst] at hin
          by_cases hq : (a.isDirectory && !skipDirs.contains a.name) = true
          · rw [if_pos hq] at hin
            have hdir : a.isDirectory = true := by
              have := Bool.and_elim_left hq
              exact this
            have hskip : a.name ∉ skipDirs := by
              have := Bool.and_elim_right hq
              simpa using this
            rcases List.mem_cons.mp hin with heq | hrec
            · rw [Prod.mk.injEq] at heq
              obtain ⟨hq2, hc2⟩ := heq
              subst hq2
              subst hc2
              exact DispatchReach.here (List.mem_cons_self _ _) hdir hst hskip hd
            · have hrec2 := getSubdirectories_sound maxDepth a
                (p ++ "/" ++ a.name) (d + 1) c q hrec
              exact DispatchReach.there (List.mem_cons_self _ _) hdir hst hskip hd hrec2
          · rw [if_neg hq] at hin
            simp at hin
        · rw [if_neg hst] at hin
          simp at hin
      · exact DispatchReach.widen maxDepth nm st a rest p d c q
          (getSubdirectoriesLoop_sound maxDepth rest nm st p d hd c q hin)

end

/-- Completeness direction: every pair the specification relation
reaches is produced by the walker. -/
theorem getSubdirectories_complete (maxDepth : Nat) (e : FSEntry) (p : String) (d : Nat)
    (c : FSEntry) (q : String) (h : DispatchReach maxDepth e p d c q) :
    (q, c) ∈ getSubdirectories maxDepth e p d := by
  induction h with
  | here hmem hdir hst hskip hdd =>
      rw [getSubdirectories]
      rw [if_neg (Nat.not_lt.mpr hdd)]
      simp only
      exact loop_mem_of_qual _ _ _ _ _ hmem hdir hst hskip
  | there hmem hdir hst hskip hdd hrec ih =>
      rw [getSubdirectories]
      rw [if_neg (Nat.not_lt.mpr hdd)]
      simp only
      exact loop_mem_of_rec _ _ _ _ _ _ _ hmem hdir hst hskip ih

/-- The walker output is exactly the specification relation. -/
theorem getSubdirectories_iff (maxDepth : Nat) (e : FSEntry) (p : String) (d : Nat)
    (c : FSEntry) (q : String) :
    (q, c) ∈ getSubdirectories maxDepth e p d ↔ DispatchReach maxDepth e p d c q :=
  ⟨getSubdirectories_sound maxDepth e p d c q, getSubdirectories_complete maxDepth e p d c q⟩

/-!
Small arithmetic helpers about the reporter.
-/

/-- The specified size of a child list is the sum of the specified
sizes of its members. -/
theorem sizeOkList_eq_sum (l : List FSEntry) : sizeOkList l = (l.map sizeOk).sum := by
  induction l with
  | nil => simp [sizeOkList]
  | cons c r ih => simp [sizeOkList, ih]

/-- A prefix sums to at most the whole list. -/
theorem sum_take_le (l : List Nat) (n : Nat) : (l.take n).sum ≤ l.sum := by
  conv_rhs => rw [← List.take_append_drop n l]
  rw [List.sum_append]
  exact Nat.le_add_right _ _

/-- Sorting does not change the total size. -/
theorem sum_map_sortBySizeDesc (l : List DirectoryItem) :
    ((sortBySizeDesc l).map DirectoryItem.size).sum = (l.map DirectoryItem.size).sum :=
  ((sortBySizeDesc_perm l).map DirectoryItem.size).sum_eq

/-!
The claims.
-/

/-- Claim C1: the size-report walker is claimed to treat `maxDepth = 0`
as unlimited, so that scanning `root/{a/(file 100B), b/{c/(file
200B)}}` yields nodes a, b and c (the latter at depth 1).  Evaluating
the source at that input shows the walker cuts recursion once
`currentDepth` exceeds 0: only a and b (both at depth 0) are emitted,
no node named c appears anywhere in the walked list, the reported
total is 300 and the top-2 report lists b before a.  The absence of c
contradicts the claim and the walker's own doc comment ("0 =
unlimited"). -/
theorem scan_maxDepth_zero_cuts_at_depth_zero :
    listDirectoryContents scanTreeC1 "root" 0 2 =
      [{ name := "b", path := "root/b", relativePath := "b", size := 200, depth := 0 },
       { name := "a", path := "root/a", relativePath := "a", size := 100, depth := 0 }] ∧
    (getDirectorySizes (some scanTreeC1) "root" 0 2).totalSize = 300 ∧
    ∀ x ∈ listDirectoryContentsRec 0 scanTreeC1 "root" 0, x.name ≠ "c" := by
  refine ⟨by decide, by decide, by decide⟩

/-- Claim C2 counterexample: on the scenario tree with `maxDepth = 0`
and `topCount = 1`, the walker discovers two nodes whose sizes sum to
300, yet the reported `totalSize` is 200: the total is computed over
the sliced top-`topCount` list, not over the full discovered node
set. -/
theorem totalSize_truncated_by_topCount :
    (getDirectorySizes (some scanTreeC1) "root" 0 1).totalSize = 200 ∧
    ((listDirectoryContentsRec 0 scanTreeC1 "root" 0).map DirectoryItem.size).sum = 300 := by
  refine ⟨by decide, by decide⟩

/-- Claim C2 (amended): the reported `totalSize` equals the sum of
sizes over the nodes the report displays (the sorted list truncated to
`topCount`); it therefore never exceeds the sum over the full
discovered set, and coincides with it exactly when at most `topCount`
nodes were discovered. -/
theorem totalSize_sums_reported_nodes (e : FSEntry) (p : String) (maxDepth topCount : Nat)
    (h1 : e.statOk = true) (h2 : e.isDirectory = true) :
    (getDirectorySizes (some e) p maxDepth topCount).totalSize
        = (((getDirectorySizes (some e) p maxDepth topCount).nodes).map DirectoryItem.size).sum ∧
    (getDirectorySizes (some e) p maxDepth topCount).totalSize
        ≤ ((listDirectoryContentsRec maxDepth e p 0).map DirectoryItem.size).sum ∧
    ((listDirectoryContentsRec maxDepth e p 0).length ≤ topCount →
      (getDirectorySizes (some e) p maxDepth topCount).totalSize
        = ((listDirectoryContentsRec maxDepth e p 0).map DirectoryItem.size).sum) := by
  have hds : getDirectorySizes (some e) p maxDepth topCount =
      { ok := true, nodes := listDirectoryContents e p maxDepth topCount,
        totalSize := ((listDirectoryContents e p maxDepth topCount).map DirectoryItem.size).sum } := by
    simp [getDirectorySizes, h1, h2]
  refine ⟨by rw [hds], ?_, ?_⟩
  · rw [hds]
    show ((listDirectoryContents e p maxDepth topCount).map DirectoryItem.size).sum ≤ _
    rw [listDirectoryContents, List.map_take]
    exact le_trans (sum_take_le _ _) (le_of_eq (sum_map_sortBySizeDesc _))
  · intro hlen
    rw [hds]
    show ((listDirectoryContents e p maxDepth topCount).map DirectoryItem.size).sum = _
    rw [listDirectoryContents, List.take_of_length_le, sum_map_sortBySizeDesc]
    rw [(sortBySizeDesc_perm _).length_eq]
    exact hlen

/-- Claim C2 witness: the amended statement evaluated on the scenario
tree with a `topCount` large enough to hold every discovered node. -/
theorem totalSize_sums_reported_nodes_witness :
    scanTreeC1.statOk = true ∧ scanTreeC1.isDirectory = true ∧
    ((getDirectorySizes (some scanTreeC1) "root" 0 5).totalSize
        = (((getDirectorySizes (some scanTreeC1) "root" 0 5).nodes).map DirectoryItem.size).sum ∧
      (getDirectorySizes (some scanTreeC1) "root" 0 5).totalSize
        ≤ ((listDirectoryContentsRec 0 scanTreeC1 "root" 0).map DirectoryItem.size).sum ∧
      ((listDirectoryContentsRec 0 scanTreeC1 "root" 0).length ≤ 5 →
        (getDirectorySizes (some scanTreeC1) "root" 0 5).totalSize
          = ((listDirectoryContentsRec 0 scanTreeC1 "root" 0).map DirectoryItem.size).sum)) :=
  ⟨by decide, by decide,
    totalSize_sums_reported_nodes scanTreeC1 "root" 0 5 (by decide) (by decide)⟩

/-- Claim C3 counterexample: in a readable directory `t` whose first
child cannot even be statted and whose second child is a readable
10-byte file, `getSize` returns 0 (the stat failure aborts the
sibling loop, warning with the parent path), while the claimed sum
over readable children is 10: a child whose stat fails does abort the
sum of the remaining readable siblings. -/
theorem getSize_statFailure_aborts_siblings :
    getSize statFailTree "t" = .ok (0, ["t"]) ∧
    claimedReadableSum statFailChildren "t" = 10 ∧
    ∀ ws, getSize statFailTree "t" ≠ .ok (claimedReadableSum statFailChildren "t", ws) := by
  refine ⟨rfl, rfl, ?_⟩
  intro ws h
  have h3 : Except.ok ((0 : Nat), ["t"]) = (Except.ok ((10 : Nat), ws) : Except Unit _) := h
  have h2 := Except.ok.inj h3
  simp at h2

/-- Claim C3 (amended): provided every entry of the children can be
statted, `getSize` on a readable directory returns normally with the
sum of the specified sizes of all children, where an unreadable
directory child (listing fails) contributes zero and produces exactly
the one warning naming its path, without aborting the sum over the
remaining readable children. -/
theorem getSize_listing_failures_skipped (nm : String) (cs : List FSEntry) (p : String)
    (h : allStatOkList cs = true) :
    getSize (.dir nm true true cs) p = .ok (sizeOkList cs, sizeOkWarningsList cs p) ∧
    sizeOkList cs = (cs.map sizeOk).sum ∧
    ∀ c ∈ cs, isUnreadableDir c = true →
      sizeOk c = 0 ∧ sizeOkWarnings c (p ++ "/" ++ c.name) = [p ++ "/" ++ c.name] := by
  refine ⟨?_, sizeOkList_eq_sum cs, ?_⟩
  · have hall : allStatOk (.dir nm true true cs) = true := by simp [allStatOk, h]
    have h4 := getSize_of_allStatOk (.dir nm true true cs) p hall
    simpa [sizeOk, sizeOkWarnings] using h4
  · intro c hc hunread
    match c with
    | .file nm2 sz2 st2 => simp [isUnreadableDir] at hunread
    | .dir nm2 st2 rd2 cs2 =>
        simp [isUnreadableDir] at hunread
        subst hunread
        simp [sizeOk, sizeOkWarnings]

/-- Claim C3 witness: the amended statement evaluated on a directory
`t` containing a statable-but-unreadable directory child `c` and a
readable 10-byte file: the computed size is 10 and the single warning
names `t/c`. -/
theorem getSize_listing_failures_skipped_witness :
    allStatOkList unreadableChildren = true ∧
    (getSize (.dir "t" true true unreadableChildren) "t"
        = .ok (sizeOkList unreadableChildren, sizeOkWarningsList unreadableChildren "t") ∧
      sizeOkList unreadableChildren = (unreadableChildren.map sizeOk).sum ∧
      ∀ c ∈ unreadableChildren, isUnreadableDir c = true →
        sizeOk c = 0 ∧
          sizeOkWarnings c ("t" ++ "/" ++ c.name) = ["t" ++ "/" ++ c.name]) ∧
    sizeOkList unreadableChildren = 10 ∧
    sizeOkWarningsList unreadableChildren "t" = ["t/c"] :=
  ⟨by decide, getSize_listing_failures_skipped "t" unreadableChildren "t" (by decide),
    by decide, by decide⟩

/-- Claim C5: with `maxDepth = 1` every node in the walker's returned
report was discovered at depth at most 1. -/
theorem scan_depth_bounded_by_maxDepth_one (e : FSEntry) (p : String) (topCount : Nat)
    (x : DirectoryItem) (hx : x ∈ listDirectoryContents e p 1 topCount) : x.depth ≤ 1 := by
  have h1 : x ∈ sortBySizeDesc (listDirectoryContentsRec 1 e p 0) := List.mem_of_mem_take hx
  have h2 : x ∈ listDirectoryContentsRec 1 e p 0 := (sortBySizeDesc_perm _).mem_iff.mp h1
  exact (depth_bound_rec 1 e p 0 x h2).2

/-- Claim C5 witness: on the chain `root/a/b/deep` scanned with
`maxDepth = 1`, the node for `b` is in the report at depth 1. -/
theorem scan_depth_bounded_by_maxDepth_one_witness :
    ({ name := "b", path := "root/a/b", relativePath := "b", size := 0, depth := 1 } :
        DirectoryItem) ∈ listDirectoryContents depthDemoTree "root" 1 10 ∧
    ({ name := "b", path := "root/a/b", relativePath := "b", size := 0, depth := 1 } :
        DirectoryItem).depth ≤ 1 :=
  ⟨by decide, scan_depth_bounded_by_maxDepth_one depthDemoTree "root" 10 _ (by decide)⟩

/-- Claim C6: in the rendered report, sizes never increase from one
entry to the next (a strictly larger node always precedes a smaller
one), and among nodes of any fixed size the report preserves the
pre-order discovery order (the sort is stable and the `topCount` slice
keeps a prefix). -/
theorem report_sorted_descending_stable (e : FSEntry) (p : String) (maxDepth topCount : Nat) :
    (listDirectoryContents e p maxDepth topCount).Pairwise (fun a b => b.size ≤ a.size) ∧
    ∀ s : Nat, ((listDirectoryContents e p maxDepth topCount).filter
        (fun y => y.size == s)).Sublist
      ((listDirectoryContentsRec maxDepth e p 0).filter (fun y => y.size == s)) := by
  constructor
  · exact (sortBySizeDesc_sorted _).sublist (List.take_sublist _ _)
  · intro s
    have h := List.Sublist.filter (fun y : DirectoryItem => y.size == s)
      (List.take_sublist topCount (sortBySizeDesc (listDirectoryContentsRec maxDepth e p 0)))
    rw [filter_sortBySizeDesc] at h
    exact h

/-- Helper: the success and failure tallies of a result list split its
length. -/
theorem countP_success_split (l : List (String × ExecutionResult)) :
    l.countP (fun r => r.2.success) + l.countP (fun r => !r.2.success) = l.length := by
  induction l with
  | nil => simp
  | cons a rest ih =>
      rw [List.countP_cons, List.countP_cons]
      cases h : a.2.success <;> simp [h] <;> omega

/-- Claim C4: within a validated batch, the results are exactly one
`executeCommand` outcome per target directory in dispatch order; a
non-zero exit yields `success = false` carrying the captured stdout
(or the failure message when no stdout was captured) plus the message;
the result of a directory depends only on the command outcome in that
directory (so one failure cannot block, skip or alter another
directory's result); and the summary tallies count exactly the
successful and failing results. -/
theorem exec_failure_isolation (runner : Runner) (exec : String) (e : FSEntry)
    (dp : String) (maxDepth : Nat) (pn : Option String)
    (h1 : e.statOk = true) (h2 : e.isDirectory = true) :
    (execCommand runner exec (some e) dp maxDepth pn).results
        = (execTargets e dp maxDepth pn).map
            (fun d => (relativeTo dp d.1, executeCommand runner exec d.1)) ∧
    (∀ dirPath stdout msg, runner exec dirPath = .nonZero stdout msg →
        executeCommand runner exec dirPath
          = { success := false,
              output := (match stdout with
                | some s => if s = "" then msg else s
                | none => msg).trim,
              error := some msg }) ∧
    (∀ d ∈ execTargets e dp maxDepth pn, ∀ r2 : Runner,
        r2 exec d.1 = runner exec d.1 →
        executeCommand r2 exec d.1 = executeCommand runner exec d.1) ∧
    (execCommand runner exec (some e) dp maxDepth pn).successCount
        = ((execCommand runner exec (some e) dp maxDepth pn).results.filter
            (fun r => r.2.success)).length ∧
    (execCommand runner exec (some e) dp maxDepth pn).failureCount
        = ((execCommand runner exec (some e) dp maxDepth pn).results.filter
            (fun r => !r.2.success)).length ∧
    (execCommand runner exec (some e) dp maxDepth pn).successCount
        + (execCommand runner exec (some e) dp maxDepth pn).failureCount
        = (execCommand runner exec (some e) dp maxDepth pn).results.length := by
  have hrun : execCommand runner exec (some e) dp maxDepth pn =
      { ok := true,
        results := (execTargets e dp maxDepth pn).map
          (fun d => (relativeTo dp d.1, executeCommand runner exec d.1)),
        successCount := ((execTargets e dp maxDepth pn).map
          (fun d => (relativeTo dp d.1, executeCommand runner exec d.1))).countP
            (fun r => r.2.success),
        failureCount := ((execTargets e dp maxDepth pn).map
          (fun d => (relativeTo dp d.1, executeCommand runner exec d.1))).countP
            (fun r => !r.2.success) } := by
    simp [execCommand, h1, h2]
  refine ⟨by rw [hrun], ?_, ?_, ?_, ?_, ?_⟩
  · intro dirPath stdout msg hfail
    simp [executeCommand, hfail]
  · intro d _ r2 hagree
    simp [executeCommand, hagree]
  · rw [hrun]
    exact List.countP_eq_length_filter _ _
  · rw [hrun]
    exact List.countP_eq_length_filter _ _
  · rw [hrun]
    exact countP_success_split _

/-- Claim C4 witness: the theorem applied to the two-package workspace
under the runner that fails in `r/two`; the summary tallies are 1
successful, 1 failed. -/
theorem exec_failure_isolation_witness :
    execDemoTree.statOk = true ∧ execDemoTree.isDirectory = true ∧
    (execCommand execDemoRunner "make" (some execDemoTree) "r" 2 none).results
        = (execTargets execDemoTree "r" 2 none).map
            (fun d => (relativeTo "r" d.1, executeCommand execDemoRunner "make" d.1)) ∧
    (execCommand execDemoRunner "make" (some execDemoTree) "r" 2 none).successCount = 1 ∧
    (execCommand execDemoRunner "make" (some execDemoTree) "r" 2 none).failureCount = 1 :=
  ⟨by decide, by decide,
    (exec_failure_isolation execDemoRunner "make" execDemoTree "r" 2 none
      (by decide) (by decide)).1,
    by decide, by decide⟩

/-- Claim C8: a pair of a path and subtree is dispatched by the exec
command exactly when it is reached through statable, readable,
non-deny-listed directory links within the depth bound, and (when the
packageName filter is active) contains a `package.json`. -/
theorem exec_dispatch_set_characterization (e : FSEntry) (dp : String) (maxDepth : Nat)
    (pn : Option String) (q : String) (c : FSEntry) :
    (q, c) ∈ execTargets e dp maxDepth pn ↔
      (DispatchReach maxDepth e dp 0 c q ∧
        (pkgFilterActive pn = true → hasPackageJson c = true)) := by
  simp only [execTargets]
  by_cases hpkg : pkgFilterActive pn = true
  · rw [if_pos hpkg, List.mem_filter, getSubdirectories_iff]
    constructor
    · rintro ⟨hr, hp⟩
      exact ⟨hr, fun _ => hp⟩
    · rintro ⟨hr, hp⟩
      exact ⟨hr, hp hpkg⟩
  · rw [if_neg hpkg, getSubdirectories_iff]
    constructor
    · intro hr
      exact ⟨hr, fun hcontra => absurd hcontra hpkg⟩
    · rintro ⟨hr, _⟩
      exact hr

/-- Claim C9: when validation passes, the build and pack steps
succeed, a tarball is found and the clipboard write fails, the pack
command prints the tarball path as plain textual output (no
copied-to-clipboard line appears in its log) and still returns
true. -/
theorem pack_clipboard_failure_nonfatal (env : PackEnv) (e : FSEntry) (tp : String)
    (hroot : env.root = some e) (hst : e.statOk = true) (hdir : e.isDirectory = true)
    (hbuild : (packExecuteCommand env.runner "pnpm run build").success = true)
    (hpack : (packExecuteCommand env.runner "pnpm pack").success = true)
    (htar : env.tarballAfterPack = some tp)
    (hclip : copyToClipboard env.runner tp = false) :
    (packCommand env).ok = true ∧
    (packCommand env).log =
      ["✅ Build completed", "✅ Pack completed", "📄 Tarball path: " ++ tp,
        "🎉 Pack command completed successfully!"] := by
  simp [packCommand, hroot, hst, hdir, hbuild, hpack, htar, hclip]

/-- Claim C9 witness: the theorem applied to the demonstration pack
environment whose clipboard pipeline fails. -/
theorem pack_clipboard_failure_nonfatal_witness :
    packDemoEnv.root = some (.dir "proj" true true []) ∧
    (packExecuteCommand packDemoEnv.runner "pnpm run build").success = true ∧
    (packExecuteCommand packDemoEnv.runner "pnpm pack").success = true ∧
    packDemoEnv.tarballAfterPack = some "/proj/proj-1.0.0.tgz" ∧
    copyToClipboard packDemoEnv.runner "/proj/proj-1.0.0.tgz" = false ∧
    (packCommand packDemoEnv).ok = true ∧
    (packCommand packDemoEnv).log =
      ["✅ Build completed", "✅ Pack completed",
        "📄 Tarball path: " ++ "/proj/proj-1.0.0.tgz",
        "🎉 Pack command completed successfully!"] :=
  ⟨rfl, by decide, by decide, rfl, by decide,
    (pack_clipboard_failure_nonfatal packDemoEnv (.dir "proj" true true [])
      "/proj/proj-1.0.0.tgz" rfl (by decide) (by decide) (by decide) (by decide)
      rfl (by decide)).1,
    (pack_clipboard_failure_nonfatal packDemoEnv (.dir "proj" true true [])
      "/proj/proj-1.0.0.tgz" rfl (by decide) (by decide) (by decide) (by decide)
      rfl (by decide)).2⟩

/-- Claim C10: the exec handler returns true exactly when the target
exists, can be statted and is a directory, and its boolean result does
not depend on the command outcomes at all (in particular it is true
even when every dispatched command fails). -/
theorem exec_returns_true_despite_failures (runner r2 : Runner) (exec : String)
    (root : Option FSEntry) (dp : String) (maxDepth : Nat) (pn : Option String) :
    ((execCommand runner exec root dp maxDepth pn).ok = true ↔
        ∃ e, root = some e ∧ e.statOk = true ∧ e.isDirectory = true) ∧
    (execCommand runner exec root dp maxDepth pn).ok
        = (execCommand r2 exec root dp maxDepth pn).ok := by
  match root with
  | none => simp [execCommand]
  | some e =>
      by_cases hst : e.statOk = true
      · by_cases hdir : e.isDirectory = true
        · simp [execCommand, hst, hdir]
        · simp [execCommand, hst, hdir]
      · simp [execCommand, hst]

/-- Claim C7 counterexample: one pebibyte (1024^5 bytes) exceeds the
last listed unit, and `formatBytes` indexes past the end of the unit
array: the output is "1 undefined" instead of a rendering in the
claimed units B/KB/MB/GB/TB (which would be "1024 TB"). -/
theorem formatBytes_beyond_terabytes_undefined :
    formatBytes (1024 ^ 5) = "1 undefined" ∧ formatBytes (1024 ^ 5) ≠ "1024 TB" := by
  have h0 : (1024 ^ 5 : Nat) ≠ 0 := by norm_num
  have hlog : Nat.log 1024 (1024 ^ 5) = 5 := Nat.log_pow (by norm_num) 5
  constructor
  · simp only [formatBytes, if_neg h0, hlog]
    decide
  · simp only [formatBytes, if_neg h0, hlog]
    decide

/-- Claim C7 (amended): the three benchmark values render as claimed,
and for every positive byte count below 1024^5 the function selects
the largest base-1024 unit index whose scaled value is at least 1
(that index stays within the B/KB/MB/GB/TB table) and renders the
value rounded to two decimal places with trailing zeros dropped. -/
theorem formatBytes_unit_selection :
    formatBytes 0 = "0 B" ∧ formatBytes 1536 = "1.5 KB" ∧ formatBytes 1048576 = "1 MB" ∧
    ∀ b : Nat, 0 < b → b < 1024 ^ 5 →
      ∃ i, 1024 ^ i ≤ b ∧ (∀ j, 1024 ^ j ≤ b → j ≤ i) ∧ i ≤ 4 ∧
        byteUnits.getD i "undefined" ∈ byteUnits ∧
        formatBytes b = renderTwoDecimals (toFixedTwo b (1024 ^ i)) ++ " " ++
          byteUnits.getD i "undefined" := by
  refine ⟨by decide, ?_, ?_, ?_⟩
  · have hlog : Nat.log 1024 1536 = 1 :=
      Nat.log_eq_of_pow_le_of_lt_pow (by norm_num) (by norm_num)
    simp only [formatBytes, if_neg (by norm_num : (1536 : Nat) ≠ 0), hlog]
    decide
  · have hlog : Nat.log 1024 1048576 = 2 :=
      Nat.log_eq_of_pow_le_of_lt_pow (by norm_num) (by norm_num)
    simp only [formatBytes, if_neg (by norm_num : (1048576 : Nat) ≠ 0), hlog]
    decide
  · intro b hb hb5
    have hbne : b ≠ 0 := Nat.pos_iff_ne_zero.mp hb
    have h5 : Nat.log 1024 b < 5 := Nat.log_lt_of_lt_pow hbne hb5
    refine ⟨Nat.log 1024 b, Nat.pow_log_le_self 1024 hbne, ?_, by omega, ?_, ?_⟩
    · intro j hj
      exact (Nat.pow_le_iff_le_log (by norm_num) hbne).mp hj
    · have h4 : Nat.log 1024 b ≤ 4 := by omega
      set i := Nat.log 1024 b with hi
      interval_cases i <;> decide
    · simp only [formatBytes, if_neg hbne]

/-- Claim C7 witness: the amended statement applied at 1536 bytes. -/
theorem formatBytes_unit_selection_witness :
    (0 : Nat) < 1536 ∧ (1536 : Nat) < 1024 ^ 5 ∧
    ∃ i, 1024 ^ i ≤ 1536 ∧ (∀ j, 1024 ^ j ≤ 1536 → j ≤ i) ∧ i ≤ 4 ∧
      byteUnits.getD i "undefined" ∈ byteUnits ∧
      formatBytes 1536 = renderTwoDecimals (toFixedTwo 1536 (1024 ^ i)) ++ " " ++
        byteUnits.getD i "undefined" :=
  ⟨by norm_num, by norm_num,
    formatBytes_unit_selection.2.2.2 1536 (by norm_num) (by norm_num)⟩
